import Mathlib

/-!
# Route-trace aggregation of gobrake (`route_trace.go`, `beego/filter.go`)

A shallow embedding of the route-trace aggregation and batched-flush pipeline.

Conventions of the embedding

* Go `string` is Lean `String`; byte indices into a string are character
  indices of its `data` (the only byte searched for is the ASCII `'/'`).
* Go `int` and `time.Duration` (`int64`) are `Int`; `+=` on a duration wraps
  modulo `2^64`, `Time.Sub` saturates at the `int64` bounds.
* `time.Time` is an instant (nanoseconds since the zero time) with a location.
  Monotonic clock readings are not represented.
* `float64` milliseconds are exact rationals.
* A Go `map` is an association list with unique keys (`AList`), wrapped in
  `Option` because a Go map can be `nil`.
* Pointer receivers are threaded explicitly: a method that mutates its receiver
  returns the new value.  A nil receiver is `none`.
* A run-time panic or a wait that never returns is an `Except.error` with a `Fault`.
* `sync.Mutex` locking is not represented (sequential model).
-/

namespace gobrake

/-! ## Basic Go types -/

/-- Ways a Go call can fail to return normally. -/
inductive Fault where
  /-- method call or field access through a nil pointer -/
  | nilDeref
  /-- assignment to an entry of a nil map -/
  | nilMapWrite
  /-- `WaitGroup.Wait` with a counter that no one will decrement -/
  | blocksForever
  deriving DecidableEq, Repr

/-- Go `time.Duration`: nanoseconds as `int64`. -/
abbrev Duration := Int

/-- The `int64` two's complement wrap-around. -/
def wrap64 (x : Int) : Int := (x + 2 ^ 63) % 2 ^ 64 - 2 ^ 63

/-- Saturation to the `int64` range, as `Time.Sub` does. -/
def sat64 (x : Int) : Int :=
  if x < -(2 ^ 63) then -(2 ^ 63) else if x > 2 ^ 63 - 1 then 2 ^ 63 - 1 else x

def Millisecond : Duration := 1000000

def Minute : Duration := 60 * 1000000000

/-- A `*time.Location` other than UTC. -/
structure Location where
  name : String
  offset : Int
  deriving DecidableEq, Repr

/-- Go `time.Time`: `ns` is the instant in nanoseconds since the zero time,
`loc = none` is UTC (Go stores UTC as a nil location). -/
structure Time where
  ns : Int
  loc : Option Location
  deriving DecidableEq, Repr

/-- `Time.UTC`: the same instant with the location set to UTC. -/
def Time.UTC (t : Time) : Time := { t with loc := none }

/-- `Time.Truncate`: rounds the instant down to a multiple of `d` since the
zero time; `d <= 0` returns `t` unchanged. -/
def Time.Truncate (t : Time) (d : Duration) : Time :=
  if d ≤ 0 then t else { t with ns := t.ns - t.ns % d }

/-- `Time.Sub`: the duration `t - u`, saturated to `int64`. -/
def Time.Sub (t u : Time) : Duration := sat64 (t.ns - u.ns)

/-- `time.Since(start)` with the clock reading passed in as `now`. -/
def Since (now start : Time) : Duration := now.Sub start

/-- `durInMs`: `float64(dur) / float64(time.Millisecond)`. -/
def durInMs (dur : Duration) : ℚ := (dur : ℚ) / (Millisecond : ℚ)

/-- Go map with string keys. -/
abbrev StrMap (V : Type) := AList (fun _ : String => V)

/-! ## Spans and traces -/

/-- The `span` struct.  Its `trace` back-pointer is not stored: the owning
trace is passed to `Finish` explicitly. -/
structure span where
  name : String
  start : Time
  deriving DecidableEq, Repr

/-- A value of the `Span` interface: `noopSpan{}` or a `*span`. -/
inductive Span where
  | noopSpan
  | span (s : span)
  deriving DecidableEq, Repr

structure RouteTrace where
  Method : String
  Route : String
  StatusCode : Int
  ContentType : String
  Start : Time
  End : Time
  spans : Option (StrMap Span)
  groups : Option (StrMap Duration)

/-- The loop of `strings.LastIndexByte`: scans indices `i-1, i-2, .., 0`. -/
def LastIndexByte.loop (s : List Char) (c : Char) : Nat → Int
  | 0 => -1
  | i + 1 => if s[i]? = some c then (i : Int) else LastIndexByte.loop s c i

/-- `strings.LastIndexByte(s, c)`: index of the last `c` in `s`, or `-1`. -/
def LastIndexByte (s : List Char) (c : Char) : Int :=
  LastIndexByte.loop s c s.length

/-- `RouteTrace.respType`. -/
def RouteTrace.respType (t : RouteTrace) : String :=
  if t.StatusCode ≥ 400 then "error"
  else if t.ContentType = "" then ""
  else
    let ind := LastIndexByte t.ContentType.data '/'
    if ind ≠ -1 then String.mk (t.ContentType.data.drop (ind + 1).toNat)
    else t.ContentType

/-- From the specification's wording: "the subtype after the last `/`", the
longest suffix of the content type that contains no `'/'`. -/
def subtypeAfterLastSlash (contentType : String) : String :=
  String.mk (contentType.data.reverse.takeWhile (fun ch => ch != '/')).reverse

/-- What a call writes with `log.Printf` / `logger.Printf`. -/
abbrev LogLine := String

/-- `RouteTrace.IncGroup`: `t.groups[name] += dur`, creating the map when nil.
A nil receiver faults at `t.groupsMu.Lock()`. -/
def RouteTrace.IncGroup (t : Option RouteTrace) (name : String) (dur : Duration) :
    Except Fault (Option RouteTrace) :=
  match t with
  | none => .error Fault.nilDeref
  | some t =>
    let groups := t.groups.getD ∅
    let old := (groups.lookup name).getD 0
    .ok (some { t with groups := some (groups.insert name (wrap64 (old + dur))) })

/-- `RouteTrace.flushGroups`: hands out the groups map and resets it to nil. -/
def RouteTrace.flushGroups (t : RouteTrace) : Option (StrMap Duration) × RouteTrace :=
  (t.groups, { t with groups := none })

/-- `RouteTrace.Span`: on a nil trace returns `noopSpan{}`; otherwise registers
a new span under `name` (overwriting an older one) started at `now`. -/
def RouteTrace.Span (t : Option RouteTrace) (name : String) (now : Time) :
    Option RouteTrace × Span :=
  match t with
  | none => (none, Span.noopSpan)
  | some t =>
    let s := Span.span { name := name, start := now }
    let spans := t.spans.getD ∅
    (some { t with spans := some (spans.insert name s) }, s)

/-- `RouteTrace.StartSpan`: `_ = t.Span(name)`. -/
def RouteTrace.StartSpan (t : Option RouteTrace) (name : String) (now : Time) :
    Option RouteTrace :=
  (RouteTrace.Span t name now).1

/-- `Finish` of a `Span` value.  `trace` is the current value of the trace the
span was obtained from; `noopSpan.Finish` does nothing, `span.Finish` adds the
time since the span's start to the trace's group of the span's name. -/
def Span.Finish (s : Span) (trace : Option RouteTrace) (now : Time) :
    Except Fault (Option RouteTrace) :=
  match s with
  | Span.noopSpan => .ok trace
  | Span.span sp =>
    let since := Since now sp.start
    RouteTrace.IncGroup trace sp.name since

/-- `RouteTrace.FinishSpan`: returns at once on a nil trace, logs when no span
is registered under `name`, otherwise calls `Finish` on the registered span. -/
def RouteTrace.FinishSpan (t : Option RouteTrace) (name : String) (now : Time) :
    Except Fault (Option RouteTrace × List LogLine) :=
  match t with
  | none => .ok (none, [])
  | some tr =>
    match (tr.spans.getD ∅).lookup name with
    | none => .ok (some tr, ["no span with name=" ++ name.quote ++ " is in progress"])
    | some s =>
      match s.Finish (some tr) now with
      | .error f => .error f
      | .ok t' => .ok (t', [])

/-- The group total of `name` in a trace (`t.groups[name]`, zero when absent). -/
def RouteTrace.groupTotal (t : Option RouteTrace) (name : String) : Duration :=
  match t with
  | none => 0
  | some t => ((t.groups.getD ∅).lookup name).getD 0

/-! ## Breakdowns -/

/-- Modelled from the spec: `routeStat` (the StatAccumulator) is not part of the
sources; it is the series of samples passed to its `Add`, in milliseconds. -/
structure routeStat where
  samples : List ℚ
  deriving DecidableEq

/-- Modelled from the spec: `newRouteStat()`, an accumulator created empty.
The zero value embedded in a new `routeBreakdown` is empty as well. -/
def newRouteStat : routeStat := { samples := [] }

/-- Modelled from the spec: `routeStat.Add(sample)` records one more sample. -/
def routeStat.Add (s : routeStat) (ms : ℚ) : routeStat :=
  { samples := s.samples ++ [ms] }

structure routeBreakdownKey where
  Method : String
  Route : String
  RespType : String
  Time : Time
  deriving DecidableEq

/-- The `routeBreakdown` struct: embedded key, embedded overall accumulator and
the per-group accumulators. -/
structure routeBreakdown where
  routeBreakdownKey : routeBreakdownKey
  routeStat : routeStat
  Groups : Option (StrMap gobrake.routeStat)

/-- One iteration of the loop of `routeBreakdown.Add`. -/
def routeBreakdown.Add.step (G : StrMap gobrake.routeStat) (name : String)
    (dur : Duration) : StrMap gobrake.routeStat :=
  let s := (G.lookup name).getD newRouteStat
  G.insert name (s.Add (durInMs dur))

/-- `routeBreakdown.Add`. -/
def routeBreakdown.Add (b : routeBreakdown) (total : Duration)
    (groups : Option (StrMap Duration)) : routeBreakdown :=
  let G := b.Groups.getD ∅
  let stat := b.routeStat.Add (durInMs total)
  let groups := groups.getD ∅
  let G := groups.foldl routeBreakdown.Add.step G
  { b with routeStat := stat, Groups := some G }

/-- Go `error` values that `send` can return. -/
inductive GoError where
  | errUnauthorized
  | unexpectedStatus (status : String)
  | other (msg : String)
  deriving DecidableEq, Repr

/-- The `NotifierOptions` fields read by this file. -/
structure NotifierOptions where
  ProjectId : Int
  ProjectKey : String
  Host : String
  Environment : String
  deriving DecidableEq

structure breakdownsOut where
  Env : String
  Routes : List routeBreakdown

structure Request where
  method : String
  url : String
  Authorization : String
  ContentType : String
  body : breakdownsOut

/-- What `send` looks at in an `http.Response`. -/
structure Response where
  StatusCode : Int
  Status : String
  readErr : Option GoError

/-- The collaborators of `send`: `routeStat.Pack` (not part of the sources),
the JSON encoder, `http.NewRequest` and the HTTP client. -/
structure Transport where
  Pack : routeStat → Option GoError
  Encode : breakdownsOut → Option GoError
  NewRequest : String → String → Option GoError
  Do : Request → Except GoError Response

/-- The loop over `b.Groups` in `routeBreakdown.Pack`. -/
def routeBreakdown.Pack.loop (env : Transport) : List gobrake.routeStat → Option GoError
  | [] => none
  | v :: rest =>
    match env.Pack v with
    | some err => some err
    | none => routeBreakdown.Pack.loop env rest

/-- `routeBreakdown.Pack`. -/
def routeBreakdown.Pack (env : Transport) (b : routeBreakdown) : Option GoError :=
  match env.Pack b.routeStat with
  | some err => some err
  | none => routeBreakdown.Pack.loop env (((b.Groups.getD ∅).entries).map Sigma.snd)

/-- The `routeBreakdowns` struct.  `flushTimer` records whether a timer is
armed, `addWG` is the counter of the wait group. -/
structure routeBreakdowns where
  opt : NotifierOptions
  apiURL : String
  flushTimer : Option Unit
  addWG : Option Nat
  m : Option (AList (fun _ : routeBreakdownKey => routeBreakdown))

/-- `newRouteBreakdowns`. -/
def newRouteBreakdowns (opt : NotifierOptions) : routeBreakdowns :=
  { opt := opt
    apiURL := opt.Host ++ "/api/v5/projects/" ++ toString opt.ProjectId ++ "/routes-breakdowns"
    flushTimer := none
    addWG := none
    m := none }

/-- `routeBreakdowns.init`. -/
def routeBreakdowns.init (s : routeBreakdowns) : routeBreakdowns :=
  if s.flushTimer = none then
    { s with flushTimer := some (), addWG := some 0, m := some ∅ }
  else s

/-- The first loop of `send`: packs every breakdown and collects them. -/
def routeBreakdowns.send.loop (env : Transport) :
    List routeBreakdown → List routeBreakdown → Except GoError (List routeBreakdown)
  | [], routes => .ok routes
  | v :: rest, routes =>
    match v.Pack env with
    | some err => .error err
    | none => routeBreakdowns.send.loop env rest (routes ++ [v])

/-- `routeBreakdowns.send`: `none` is a nil error. -/
def routeBreakdowns.send (env : Transport) (s : routeBreakdowns)
    (m : AList (fun _ : routeBreakdownKey => routeBreakdown)) : Option GoError :=
  match routeBreakdowns.send.loop env (m.entries.map Sigma.snd) [] with
  | .error err => some err
  | .ok routes =>
    let out : breakdownsOut := { Env := s.opt.Environment, Routes := routes }
    match env.Encode out with
    | some err => some err
    | none =>
      match env.NewRequest "PUT" s.apiURL with
      | some err => some err
      | none =>
        let req : Request :=
          { method := "PUT", url := s.apiURL
            Authorization := "Bearer " ++ s.opt.ProjectKey
            ContentType := "application/json", body := out }
        match env.Do req with
        | .error err => some err
        | .ok resp =>
          match resp.readErr with
          | some err => some err
          | none =>
            if resp.StatusCode ≥ 200 ∧ resp.StatusCode < 300 then none
            else if resp.StatusCode = 401 then some GoError.errUnauthorized
            else some (GoError.unexpectedStatus resp.Status)

/-- What one call of `Flush` did: the map it passed to `send` (if it called
`send`) and the error it logged (if `send` returned one). -/
structure FlushReport where
  sent : Option (AList (fun _ : routeBreakdownKey => routeBreakdown))
  logged : Option GoError

/-- `routeBreakdowns.Flush`. -/
def routeBreakdowns.Flush (env : Transport) (s : routeBreakdowns) :
    Except Fault (routeBreakdowns × FlushReport) :=
  let addWG := s.addWG
  let m := s.m
  let s' := { s with flushTimer := none, addWG := none, m := none }
  match m with
  | none => .ok (s', { sent := none, logged := none })
  | some m =>
    match addWG with
    | none => .error Fault.nilDeref
    | some n =>
      if n ≠ 0 then .error Fault.blocksForever
      else
        let err := routeBreakdowns.send env s' m
        .ok (s', { sent := some m, logged := err })

/-- The key `Notify` builds for a trace. -/
def routeBreakdowns.Notify.key (trace : RouteTrace) : routeBreakdownKey :=
  { Method := trace.Method
    Route := trace.Route
    RespType := trace.respType
    Time := (trace.Start.UTC).Truncate Minute }

/-- `routeBreakdowns.Notify` for a non-nil trace.  The returned error of the
source is always nil and is not represented; the result is the new state of the
receiver and of the trace (whose groups are flushed). -/
def routeBreakdowns.Notify (s : routeBreakdowns) (trace : RouteTrace) :
    Except Fault (routeBreakdowns × RouteTrace) :=
  if trace.StatusCode < 200 ∨ (trace.StatusCode ≥ 300 ∧ trace.StatusCode < 400) then
    .ok (s, trace)
  else
    let key := routeBreakdowns.Notify.key trace
    let s := s.init
    match s.m with
    | none => .error Fault.nilMapWrite
    | some m =>
      let b := (m.lookup key).getD
        { routeBreakdownKey := key, routeStat := { samples := [] }, Groups := none }
      match s.addWG with
      | none => .error Fault.nilDeref
      | some wg =>
        let wg := wg + 1
        let total := trace.End.Sub trace.Start
        let (groups, trace) := trace.flushGroups
        let b := b.Add total groups
        let wg := wg - 1
        .ok ({ s with addWG := some wg, m := some (m.insert key b) }, trace)

/-- Folds a list of traces through `Notify`, one after the other. -/
def routeBreakdowns.NotifyAll (s : routeBreakdowns) :
    List RouteTrace → Except Fault routeBreakdowns
  | [] => .ok s
  | t :: ts =>
    match s.Notify t with
    | .error f => .error f
    | .ok (s', _) => routeBreakdowns.NotifyAll s' ts

/-- The breakdown stored under `key` in the current window, if any. -/
def routeBreakdowns.find (s : routeBreakdowns) (key : routeBreakdownKey) :
    Option routeBreakdown :=
  s.m.bind (fun m => m.lookup key)

/-- The accumulator of group `name` in a breakdown, if any. -/
def routeBreakdown.group (b : routeBreakdown) (name : String) : Option gobrake.routeStat :=
  (b.Groups.getD ∅).lookup name

/-- States the program can be in: built by `newRouteBreakdowns` and changed
only by `Notify` and `Flush`. -/
inductive routeBreakdowns.Reachable : routeBreakdowns → Prop where
  | new (opt : NotifierOptions) : routeBreakdowns.Reachable (newRouteBreakdowns opt)
  | notify {s s' : routeBreakdowns} {t t' : RouteTrace} :
      routeBreakdowns.Reachable s → s.Notify t = .ok (s', t') →
      routeBreakdowns.Reachable s'
  | flush {s s' : routeBreakdowns} {env : Transport} {r : FlushReport} :
      routeBreakdowns.Reachable s → s.Flush env = .ok (s', r) →
      routeBreakdowns.Reachable s'

/-- A status code that `Notify` keeps. -/
def kept (t : RouteTrace) : Prop :=
  ¬ (t.StatusCode < 200 ∨ (t.StatusCode ≥ 300 ∧ t.StatusCode < 400))

instance (t : RouteTrace) : Decidable (kept t) :=
  inferInstanceAs
    (Decidable (¬ (t.StatusCode < 200 ∨ (t.StatusCode ≥ 300 ∧ t.StatusCode < 400))))

/-! ## Views and specification-side functions used by the theorems -/

/-- The Go map from breakdown keys to breakdowns. -/
abbrev KeyMap := AList (fun _ : routeBreakdownKey => routeBreakdown)

/-- The current window's map, empty when there is none. -/
def routeBreakdowns.cur (s : routeBreakdowns) : KeyMap := s.m.getD ∅

/-- The breakdown `Notify` creates for a key that is not yet in the map. -/
def freshBreakdown (key : routeBreakdownKey) : routeBreakdown :=
  { routeBreakdownKey := key, routeStat := { samples := [] }, Groups := none }

/-- The three window fields are set and cleared together, no writer is in
flight, and every stored breakdown carries the key it is stored under. -/
def routeBreakdowns.Inv (s : routeBreakdowns) : Prop :=
  (s.flushTimer = none ∧ s.addWG = none ∧ s.m = none) ∨
  (s.flushTimer = some () ∧ s.addWG = some 0 ∧
    ∃ m, s.m = some m ∧ ∀ k b, m.lookup k = some b → b.routeBreakdownKey = k)

/-- What one group accumulator becomes when a request is folded in: unchanged
when the request did not carry the group, otherwise extended by one sample. -/
def foldGroup (old : Option routeStat) (carried : Option Duration) : Option routeStat :=
  match carried with
  | none => old
  | some d => some ((old.getD newRouteStat).Add (durInMs d))

/-- The kept traces of `ts` that `Notify` files under `k`, in order. -/
def observations (k : routeBreakdownKey) (ts : List RouteTrace) : List RouteTrace :=
  ts.filter (fun t => decide (kept t) && decide (routeBreakdowns.Notify.key t = k))

/-- The total durations, in milliseconds, of the kept traces filed under `k`. -/
def overallSeries (k : routeBreakdownKey) (ts : List RouteTrace) : List ℚ :=
  (observations k ts).map (fun t => durInMs (t.End.Sub t.Start))

/-- The durations of group `g`, in milliseconds, of the kept traces filed
under `k` that carry `g`. -/
def groupSeries (k : routeBreakdownKey) (g : String) (ts : List RouteTrace) : List ℚ :=
  (observations k ts).filterMap (fun t => ((t.groups.getD ∅).lookup g).map durInMs)

/-- Samples of the overall accumulator stored under `k` in a map. -/
def overallAt (m : KeyMap) (k : routeBreakdownKey) : List ℚ :=
  match m.lookup k with
  | none => []
  | some b => b.routeStat.samples

/-- The accumulator of group `g` of the breakdown stored under `k` in a map. -/
def groupAt (m : KeyMap) (k : routeBreakdownKey) (g : String) : Option routeStat :=
  (m.lookup k).bind (fun b => b.group g)

/-- Samples of an accumulator that may be absent. -/
def samplesOf (st : Option routeStat) : List ℚ :=
  match st with
  | none => []
  | some st => st.samples

/-- Every breakdown of a map carries the key it is stored under. -/
def KeyOK (m : KeyMap) : Prop := ∀ k b, m.lookup k = some b → b.routeBreakdownKey = k

/-- The map after one kept `Notify`. -/
def foldTrace (m : KeyMap) (t : RouteTrace) : KeyMap :=
  m.insert (routeBreakdowns.Notify.key t)
    (((m.lookup (routeBreakdowns.Notify.key t)).getD
      (freshBreakdown (routeBreakdowns.Notify.key t))).Add (t.End.Sub t.Start) t.groups)

/-- The map after `Notify`, whether the trace is kept or dropped. -/
def stepMap (m : KeyMap) (t : RouteTrace) : KeyMap :=
  if kept t then foldTrace m t else m

/-- The state after `Notify` on a state that satisfies the invariant. -/
def stepState (s : routeBreakdowns) (t : RouteTrace) : routeBreakdowns :=
  if kept t then
    { s with flushTimer := some (), addWG := some 0, m := some (foldTrace s.cur t) }
  else s

/-- One operation on the scheduler. -/
inductive Step where
  | notify (t : RouteTrace)
  | flush (env : Transport)

/-- Runs a sequence of `Notify` and `Flush` calls and collects the reports of
the flushes, in order. -/
def routeBreakdowns.run (s : routeBreakdowns) :
    List Step → Except Fault (routeBreakdowns × List FlushReport)
  | [] => .ok (s, [])
  | Step.notify t :: rest =>
    match s.Notify t with
    | .error f => .error f
    | .ok (s', _) => routeBreakdowns.run s' rest
  | Step.flush env :: rest =>
    match s.Flush env with
    | .error f => .error f
    | .ok (s', r) =>
      match routeBreakdowns.run s' rest with
      | .error f => .error f
      | .ok (s'', rs) => .ok (s'', r :: rs)

/-- The window that the traces `ts` build when folded into a fresh scheduler:
`none` when no window is opened. -/
def windowOf (opt : NotifierOptions) (ts : List RouteTrace) : Option KeyMap :=
  match (newRouteBreakdowns opt).NotifyAll ts with
  | .ok s => s.m
  | .error _ => none

/-- The batches a sequence of steps should hand over: each flush hands over
the window built from the traces notified since the previous flush (`seg`
holds the traces notified since then). -/
def batches (opt : NotifierOptions) : List RouteTrace → List Step → List (Option KeyMap)
  | _, [] => []
  | seg, Step.notify t :: rest => batches opt (seg ++ [t]) rest
  | seg, Step.flush _ :: rest => windowOf opt seg :: batches opt [] rest

/-- The state `Flush` leaves behind. -/
def cleared (s : routeBreakdowns) : routeBreakdowns :=
  { s with flushTimer := none, addWG := none, m := none }

/-! ## Example data -/

/-- Options of the example scheduler. -/
def exampleOpt : NotifierOptions :=
  { ProjectId := 1, ProjectKey := "key", Host := "https://api.example.test"
    Environment := "production" }

/-- A `GET /users/:id` request answered with status `status` after `ms`
milliseconds, of which `db` milliseconds were spent in group `"db"`. -/
def exampleTrace (status ms db : Int) : RouteTrace :=
  { Method := "GET", Route := "/users/:id", StatusCode := status
    ContentType := "application/json"
    Start := { ns := 0, loc := none }, End := { ns := ms * 1000000, loc := none }
    spans := none
    groups := some ((∅ : StrMap Duration).insert "db" (db * 1000000)) }

/-- A transport whose server answers every request with `401 Unauthorized`. -/
def unauthorizedTransport : Transport :=
  { Pack := fun _ => none
    Encode := fun _ => none
    NewRequest := fun _ _ => none
    Do := fun _ => .ok { StatusCode := 401, Status := "401 Unauthorized", readErr := none } }

/-- The example request of 80 ms, started half a minute later and stamped in
another time zone. -/
def exampleTraceCET : RouteTrace :=
  { exampleTrace 200 80 30 with
    Start := { ns := 30000000000, loc := some { name := "CET", offset := 3600 } }
    End := { ns := 30080000000, loc := some { name := "CET", offset := 3600 } } }

/-- Modelled from the spec: the `Notifier` struct is not part of the sources;
the filter reaches the aggregation through its `Routes` field. -/
structure Notifier where
  Routes : routeBreakdowns

/-- Modelled from the spec: `NewRouteMetric` is not part of the sources; a
trace is created at request start with its method and route, every other
field at its zero value. -/
def NewRouteMetric (now : Time) (method route : String) : RouteTrace :=
  { Method := method, Route := route, StatusCode := 0, ContentType := ""
    Start := now, End := { ns := 0, loc := none }, spans := none, groups := none }

end gobrake

namespace beego

open gobrake

/-- What the filter uses of a beego `*context.Context`: `ctx.Input.Method()`
and `ctx.ResponseWriter.Status`. -/
structure Context where
  Method : String
  Status : Int
  deriving DecidableEq

/-- The calls the filter makes, in order. -/
inductive Call where
  | log (line : String)
  | next (ctx : Context)
  | notify (metric : RouteTrace)

/-- The filter function returned by `New(notifier)(next)`, applied to `ctx`.
`FindRouter` is `web.BeeApp.Handlers.FindRouter` followed by `GetPattern`
(`none` when not found), `next` is the effect of the next handler on the
context and `now` the clock reading at `NewRouteMetric`.  The result is the
notifier and context after the call and the calls made. -/
def New (notifier : Option Notifier) (FindRouter : Context → Option String)
    (next : Context → Context) (now : Time) (ctx : Context) :
    Except Fault (Option Notifier × Context × List Call) :=
  match notifier with
  | none =>
    .ok (none, next ctx, [Call.log "airbrake notifier not defined", Call.next ctx])
  | some n =>
    match FindRouter ctx with
    | none => .ok (some n, next ctx, [Call.next ctx])
    | some routerPattern =>
      let metric := NewRouteMetric now ctx.Method routerPattern
      let ctx' := next ctx
      let statusCode := ctx'.Status
      let statusCode := if statusCode = 0 then 200 else statusCode
      let metric := { metric with StatusCode := statusCode }
      match n.Routes.Notify metric with
      | .error f => .error f
      | .ok (routes, _) =>
        .ok (some { n with Routes := routes }, ctx', [Call.next ctx, Call.notify metric])

end beego

/-! # Lemmas -/

namespace gobrake

theorem LastIndexByte.loop_none (s : List Char) (c : Char) (n : Nat)
    (h : ∀ i, i < n → s[i]? ≠ some c) : LastIndexByte.loop s c n = -1 := by
  induction n with
  | zero => rfl
  | succ k ih =>
    have hk : s[k]? ≠ some c := h k (Nat.lt_succ_self k)
    have hrest : ∀ i, i < k → s[i]? ≠ some c := fun i hi => h i (Nat.lt_succ_of_lt hi)
    simp only [LastIndexByte.loop, hk, if_false]
    exact ih hrest

theorem LastIndexByte.loop_found (pre r : List Char) (c : Char) (hr : c ∉ r) (k : Nat)
    (hk : k ≤ r.length) :
    LastIndexByte.loop (pre ++ c :: r) c (pre.length + 1 + k) = (pre.length : Int) := by
  induction k with
  | zero =>
    have : (pre ++ c :: r)[pre.length]? = some c := by
      rw [List.getElem?_append_right (Nat.le_refl _)]; simp
    simp [LastIndexByte.loop, this]
  | succ j ih =>
    have hj : j < r.length := hk
    have hget : (pre ++ c :: r)[pre.length + 1 + j]? = r[j]? := by
      rw [List.getElem?_append_right (by omega)]
      have : pre.length + 1 + j - pre.length = j + 1 := by omega
      rw [this]; simp
    have hne : r[j]? ≠ some c := by
      intro hc
      exact hr (List.getElem?_mem hc)
    have hstep : pre.length + 1 + (j + 1) = (pre.length + 1 + j) + 1 := by omega
    rw [hstep]
    simp only [LastIndexByte.loop, hget, hne, if_false]
    exact ih (Nat.le_of_lt hj)

theorem LastIndexByte_split (pre r : List Char) (c : Char) (hr : c ∉ r) :
    LastIndexByte (pre ++ c :: r) c = (pre.length : Int) := by
  have h := LastIndexByte.loop_found pre r c hr r.length (Nat.le_refl _)
  have hl : (pre ++ c :: r).length = pre.length + 1 + r.length := by
    simp; omega
  unfold LastIndexByte
  rw [hl]; exact h

theorem LastIndexByte_absent (s : List Char) (c : Char) (h : c ∉ s) :
    LastIndexByte s c = -1 := by
  apply LastIndexByte.loop_none
  intro i _ hc
  exact h (List.getElem?_mem hc)

/-- Every list containing `c` splits at its last occurrence of `c`. -/
theorem exists_last_split (s : List Char) (c : Char) (h : c ∈ s) :
    ∃ pre r, s = pre ++ c :: r ∧ c ∉ r := by
  induction s with
  | nil => simp at h
  | cons a l ih =>
    by_cases hl : c ∈ l
    · obtain ⟨pre, r, hs, hr⟩ := ih hl
      exact ⟨a :: pre, r, by simp [hs], hr⟩
    · have hac : c = a := by
        rcases List.mem_cons.mp h with h1 | h1
        · exact h1
        · exact absurd h1 hl
      exact ⟨[], l, by simp [hac], hl⟩

theorem takeWhile_ne_of_not_mem (r : List Char) (c : Char) (rest : List Char) (hr : c ∉ r) :
    (r ++ c :: rest).takeWhile (fun ch => ch != c) = r := by
  induction r with
  | nil => simp [List.takeWhile]
  | cons a l ih =>
    have ha : a ≠ c := fun e => hr (by simp [e])
    have hl : c ∉ l := fun e => hr (List.mem_cons_of_mem _ e)
    have hb : (a != c) = true := by simpa using ha
    rw [List.cons_append, List.takeWhile_cons, hb]
    simp [ih hl]

theorem takeWhile_ne_all (r : List Char) (c : Char) (hr : c ∉ r) :
    r.takeWhile (fun ch => ch != c) = r := by
  induction r with
  | nil => rfl
  | cons a l ih =>
    have ha : a ≠ c := fun e => hr (by simp [e])
    have hl : c ∉ l := fun e => hr (List.mem_cons_of_mem _ e)
    have hb : (a != c) = true := by simpa using ha
    rw [List.takeWhile_cons, hb]
    simp [ih hl]

theorem subtypeAfterLastSlash_split (ct : String) (pre r : List Char)
    (h : ct.data = pre ++ '/' :: r) (hr : '/' ∉ r) :
    subtypeAfterLastSlash ct = String.mk r := by
  unfold subtypeAfterLastSlash
  have hrev : ct.data.reverse = r.reverse ++ '/' :: pre.reverse := by
    rw [h]; simp
  have hr' : '/' ∉ r.reverse := by simpa using hr
  rw [hrev, takeWhile_ne_of_not_mem _ _ _ hr', List.reverse_reverse]

theorem subtypeAfterLastSlash_absent (ct : String) (h : '/' ∉ ct.data) :
    subtypeAfterLastSlash ct = ct := by
  unfold subtypeAfterLastSlash
  have hr' : '/' ∉ ct.data.reverse := by simpa using h
  rw [takeWhile_ne_all _ _ hr', List.reverse_reverse]

theorem respType_eq (t : RouteTrace) :
    t.respType =
      if t.StatusCode ≥ 400 then "error"
      else if t.ContentType = "" then ""
      else subtypeAfterLastSlash t.ContentType := by
  unfold RouteTrace.respType
  by_cases h1 : t.StatusCode ≥ 400
  · simp [h1]
  · by_cases h2 : t.ContentType = ""
    · simp [h1, h2]
    · simp only [h1, h2, if_false]
      by_cases hs : '/' ∈ t.ContentType.data
      · obtain ⟨pre, r, hsplit, hr⟩ := exists_last_split _ _ hs
        have hidx : LastIndexByte t.ContentType.data '/' = (pre.length : Int) := by
          rw [hsplit]; exact LastIndexByte_split pre r '/' hr
        have hne : (pre.length : Int) ≠ -1 := by omega
        have hdrop : t.ContentType.data.drop ((pre.length : Int) + 1).toNat = r := by
          have : ((pre.length : Int) + 1).toNat = pre.length + 1 := by omega
          rw [this, hsplit]; simp
        simp only [hidx, hne, ne_eq, not_false_eq_true, if_true, hdrop]
        exact (subtypeAfterLastSlash_split _ pre r hsplit hr).symm
      · have hidx := LastIndexByte_absent _ _ hs
        simp only [hidx, ne_eq, not_true_eq_false, if_false]
        exact (subtypeAfterLastSlash_absent _ hs).symm

theorem find_eq_cur (s : routeBreakdowns) (k : routeBreakdownKey) :
    s.find k = s.cur.lookup k := by
  unfold routeBreakdowns.find routeBreakdowns.cur
  cases s.m <;> simp [AList.lookup_empty]

theorem Inv_new (opt : NotifierOptions) : (newRouteBreakdowns opt).Inv :=
  Or.inl ⟨rfl, rfl, rfl⟩

theorem Notify_dropped (s : routeBreakdowns) (t : RouteTrace) (h : ¬ kept t) :
    s.Notify t = .ok (s, t) := by
  unfold kept at h
  have h' : t.StatusCode < 200 ∨ (t.StatusCode ≥ 300 ∧ t.StatusCode < 400) := not_not.mp h
  unfold routeBreakdowns.Notify
  rw [if_pos h']

theorem Notify_kept (s : routeBreakdowns) (t : RouteTrace) (hs : s.Inv) (h : kept t) :
    s.Notify t = .ok
      ({ s with
          flushTimer := some ()
          addWG := some 0
          m := some (s.cur.insert (routeBreakdowns.Notify.key t)
            (((s.cur.lookup (routeBreakdowns.Notify.key t)).getD
              (freshBreakdown (routeBreakdowns.Notify.key t))).Add
                (t.End.Sub t.Start) t.groups)) },
       { t with groups := none }) := by
  unfold kept at h
  unfold routeBreakdowns.Notify
  rw [if_neg h]
  rcases hs with ⟨h1, h2, h3⟩ | ⟨h1, h2, m, h3, _⟩
  · obtain ⟨opt, url, ft, wg, m⟩ := s
    simp only at h1 h2 h3
    subst h1 h2 h3
    simp [routeBreakdowns.init, routeBreakdowns.cur, RouteTrace.flushGroups, freshBreakdown]
  · obtain ⟨opt, url, ft, wg, m0⟩ := s
    simp only at h1 h2 h3
    subst h1 h2 h3
    simp [routeBreakdowns.init, routeBreakdowns.cur, RouteTrace.flushGroups, freshBreakdown]

theorem Add_routeStat (b : routeBreakdown) (total : Duration) (groups : Option (StrMap Duration)) :
    (b.Add total groups).routeStat.samples = b.routeStat.samples ++ [durInMs total] := rfl

theorem Add_key (b : routeBreakdown) (total : Duration) (groups : Option (StrMap Duration)) :
    (b.Add total groups).routeBreakdownKey = b.routeBreakdownKey := rfl

theorem Add_loop_lookup (g : String) :
    ∀ (l : List (Sigma (fun _ : String => Duration))), l.NodupKeys →
    ∀ G : StrMap routeStat,
      (l.foldl (fun r a => routeBreakdown.Add.step r a.1 a.2) G).lookup g =
        foldGroup (G.lookup g) (l.dlookup g) := by
  intro l
  induction l with
  | nil => intro _ G; simp [foldGroup]
  | cons a l ih =>
    intro hnd G
    obtain ⟨n, d⟩ := a
    have hnl : n ∉ l.keys := List.not_mem_keys_of_nodupKeys_cons hnd
    have hl : l.NodupKeys := List.nodupKeys_of_nodupKeys_cons hnd
    rw [List.foldl_cons, ih hl]
    by_cases hg : g = n
    · subst hg
      have hnone : l.dlookup g = none := List.dlookup_eq_none.mpr hnl
      rw [hnone, List.dlookup_cons_eq]
      simp [foldGroup, routeBreakdown.Add.step, AList.lookup_insert]
    · rw [List.dlookup_cons_ne l ⟨n, d⟩ hg]
      have : (routeBreakdown.Add.step G n d).lookup g = G.lookup g := by
        simp [routeBreakdown.Add.step, AList.lookup_insert_ne hg]
      rw [this]

theorem Add_group (b : routeBreakdown) (total : Duration) (groups : Option (StrMap Duration))
    (g : String) :
    (b.Add total groups).group g = foldGroup (b.group g) ((groups.getD ∅).lookup g) := by
  unfold routeBreakdown.group routeBreakdown.Add
  simp only [Option.getD_some]
  exact Add_loop_lookup g (groups.getD ∅).entries (groups.getD ∅).nodupKeys (b.Groups.getD ∅)

theorem Inv_cur {s : routeBreakdowns} (hs : s.Inv) : KeyOK s.cur := by
  rcases hs with ⟨_, _, h3⟩ | ⟨_, _, m, h3, hk⟩
  · intro k b hb
    simp [routeBreakdowns.cur, h3, AList.lookup_empty] at hb
  · intro k b hb
    simp only [routeBreakdowns.cur, h3, Option.getD_some] at hb
    exact hk k b hb

theorem foldTrace_KeyOK {m : KeyMap} (t : RouteTrace) (hm : KeyOK m) : KeyOK (foldTrace m t) := by
  intro k b hb
  unfold foldTrace at hb
  by_cases hk : k = routeBreakdowns.Notify.key t
  · subst hk
    rw [AList.lookup_insert] at hb
    have hb' := (Option.some.inj hb).symm
    rw [hb', Add_key]
    cases hl : m.lookup (routeBreakdowns.Notify.key t) with
    | none => simp [freshBreakdown]
    | some b0 => simpa using hm _ _ hl
  · rw [AList.lookup_insert_ne hk] at hb
    exact hm k b hb

theorem foldTrace_lookup_ne (m : KeyMap) (t : RouteTrace) (k : routeBreakdownKey)
    (hk : k ≠ routeBreakdowns.Notify.key t) : (foldTrace m t).lookup k = m.lookup k := by
  unfold foldTrace; exact AList.lookup_insert_ne hk

theorem foldTrace_overall_same (m : KeyMap) (t : RouteTrace) :
    overallAt (foldTrace m t) (routeBreakdowns.Notify.key t) =
      overallAt m (routeBreakdowns.Notify.key t) ++ [durInMs (t.End.Sub t.Start)] := by
  unfold overallAt foldTrace
  rw [AList.lookup_insert]
  cases m.lookup (routeBreakdowns.Notify.key t) <;> simp [Add_routeStat, freshBreakdown]

theorem foldTrace_group_same (m : KeyMap) (t : RouteTrace) (g : String) :
    groupAt (foldTrace m t) (routeBreakdowns.Notify.key t) g =
      foldGroup (groupAt m (routeBreakdowns.Notify.key t) g) ((t.groups.getD ∅).lookup g) := by
  unfold groupAt foldTrace
  rw [AList.lookup_insert]
  simp only [Option.some_bind, Add_group]
  cases m.lookup (routeBreakdowns.Notify.key t) with
  | none => simp [freshBreakdown, routeBreakdown.group, AList.lookup_empty]
  | some b0 => simp

theorem samplesOf_foldGroup (old : Option routeStat) (c : Option Duration) :
    samplesOf (foldGroup old c) = samplesOf old ++ (c.map durInMs).toList := by
  cases c with
  | none => simp [foldGroup]
  | some d =>
    cases old <;> simp [foldGroup, samplesOf, routeStat.Add, newRouteStat]

theorem isSome_foldGroup (old : Option routeStat) (c : Option Duration) :
    (foldGroup old c).isSome = (old.isSome || c.isSome) := by
  cases c <;> simp [foldGroup]

theorem observations_cons (k : routeBreakdownKey) (t : RouteTrace) (ts : List RouteTrace) :
    observations k (t :: ts) =
      if kept t ∧ routeBreakdowns.Notify.key t = k then t :: observations k ts
      else observations k ts := by
  unfold observations
  rw [List.filter_cons]
  by_cases h1 : kept t <;> by_cases h2 : routeBreakdowns.Notify.key t = k <;> simp [h1, h2]

theorem stepMap_overall (m : KeyMap) (t : RouteTrace) (k : routeBreakdownKey) :
    overallAt (stepMap m t) k = overallAt m k ++ overallSeries k [t] := by
  unfold overallSeries
  rw [observations_cons]
  unfold stepMap
  by_cases h1 : kept t
  · by_cases h2 : routeBreakdowns.Notify.key t = k
    · subst h2
      simp [h1, foldTrace_overall_same, observations]
    · have h2' : k ≠ routeBreakdowns.Notify.key t := fun e => h2 e.symm
      simp [h1, h2, overallAt, foldTrace_lookup_ne m t k h2', observations]
  · simp [h1, observations]

theorem stepMap_present (m : KeyMap) (t : RouteTrace) (k : routeBreakdownKey) :
    ((stepMap m t).lookup k).isSome = ((m.lookup k).isSome || !(observations k [t]).isEmpty) := by
  rw [observations_cons]
  unfold stepMap
  by_cases h1 : kept t
  · by_cases h2 : routeBreakdowns.Notify.key t = k
    · subst h2
      simp [h1, foldTrace, AList.lookup_insert]
    · have h2' : k ≠ routeBreakdowns.Notify.key t := fun e => h2 e.symm
      simp [h1, h2, foldTrace_lookup_ne m t k h2', observations]
  · simp [h1, observations]

theorem stepMap_group (m : KeyMap) (t : RouteTrace) (k : routeBreakdownKey) (g : String) :
    samplesOf (groupAt (stepMap m t) k g) = samplesOf (groupAt m k g) ++ groupSeries k g [t] ∧
    (groupAt (stepMap m t) k g).isSome =
      ((groupAt m k g).isSome || !(groupSeries k g [t]).isEmpty) := by
  unfold groupSeries
  rw [observations_cons]
  unfold stepMap
  by_cases h1 : kept t
  · by_cases h2 : routeBreakdowns.Notify.key t = k
    · subst h2
      simp only [h1, if_true, and_self, foldTrace_group_same, samplesOf_foldGroup,
        isSome_foldGroup]
      cases hl : (t.groups.getD ∅).lookup g <;> simp [observations, List.filterMap_cons, hl]
    · have h2' : k ≠ routeBreakdowns.Notify.key t := fun e => h2 e.symm
      simp [h1, h2, groupAt, foldTrace_lookup_ne m t k h2', observations]
  · simp [h1, observations]

theorem Notify_eq_stepState (s : routeBreakdowns) (t : RouteTrace) (hs : s.Inv) :
    ∃ t', s.Notify t = .ok (stepState s t, t') := by
  unfold stepState
  by_cases h : kept t
  · rw [if_pos h]
    exact ⟨_, Notify_kept s t hs h⟩
  · rw [if_neg h]
    exact ⟨_, Notify_dropped s t h⟩

theorem stepState_Inv {s : routeBreakdowns} (t : RouteTrace) (hs : s.Inv) :
    (stepState s t).Inv := by
  unfold stepState
  by_cases h : kept t
  · rw [if_pos h]
    exact Or.inr ⟨rfl, rfl, _, rfl, foldTrace_KeyOK t (Inv_cur hs)⟩
  · rw [if_neg h]; exact hs

theorem stepState_cur (s : routeBreakdowns) (t : RouteTrace) :
    (stepState s t).cur = stepMap s.cur t := by
  unfold stepState stepMap
  by_cases h : kept t
  · simp [h, routeBreakdowns.cur]
  · simp [h]

theorem stepState_opt (s : routeBreakdowns) (t : RouteTrace) :
    (stepState s t).opt = s.opt ∧ (stepState s t).apiURL = s.apiURL := by
  unfold stepState
  by_cases h : kept t <;> simp [h]

theorem stepState_m (s : routeBreakdowns) (t : RouteTrace) :
    (stepState s t).m = if kept t then some (stepMap s.cur t) else s.m := by
  unfold stepState stepMap
  by_cases h : kept t <;> simp [h]

theorem NotifyAll_eq_foldl (ts : List RouteTrace) :
    ∀ s : routeBreakdowns, s.Inv → s.NotifyAll ts = .ok (ts.foldl stepState s) := by
  induction ts with
  | nil => intro s _; rfl
  | cons t ts ih =>
    intro s hs
    obtain ⟨t', ht⟩ := Notify_eq_stepState s t hs
    simp only [routeBreakdowns.NotifyAll, ht, List.foldl_cons]
    exact ih _ (stepState_Inv t hs)

theorem foldl_stepState_Inv (ts : List RouteTrace) :
    ∀ s : routeBreakdowns, s.Inv → (ts.foldl stepState s).Inv := by
  induction ts with
  | nil => intro s hs; exact hs
  | cons t ts ih => intro s hs; exact ih _ (stepState_Inv t hs)

theorem foldl_stepState_opt (ts : List RouteTrace) :
    ∀ s : routeBreakdowns,
      (ts.foldl stepState s).opt = s.opt ∧ (ts.foldl stepState s).apiURL = s.apiURL := by
  induction ts with
  | nil => intro s; exact ⟨rfl, rfl⟩
  | cons t ts ih =>
    intro s
    obtain ⟨h1, h2⟩ := ih (stepState s t)
    obtain ⟨h3, h4⟩ := stepState_opt s t
    exact ⟨h1.trans h3, h2.trans h4⟩

theorem foldl_stepState_cur (ts : List RouteTrace) :
    ∀ s : routeBreakdowns, (ts.foldl stepState s).cur = ts.foldl stepMap s.cur := by
  induction ts with
  | nil => intro s; rfl
  | cons t ts ih =>
    intro s
    simp only [List.foldl_cons]
    rw [ih, stepState_cur]

/-- No window is open after the fold iff none was open before and no trace was kept. -/
theorem foldl_stepState_m (ts : List RouteTrace) :
    ∀ s : routeBreakdowns,
      ((ts.foldl stepState s).m = none ↔ (s.m = none ∧ ∀ t ∈ ts, ¬ kept t)) := by
  induction ts with
  | nil => intro s; simp
  | cons t ts ih =>
    intro s
    simp only [List.foldl_cons]
    rw [ih, stepState_m]
    by_cases h : kept t
    · simp [h]
    · simp [h]

theorem overallSeries_cons (k : routeBreakdownKey) (t : RouteTrace) (ts : List RouteTrace) :
    overallSeries k (t :: ts) = overallSeries k [t] ++ overallSeries k ts := by
  unfold overallSeries observations
  rw [← List.map_append, ← List.filter_append]; rfl

theorem groupSeries_cons (k : routeBreakdownKey) (g : String) (t : RouteTrace)
    (ts : List RouteTrace) :
    groupSeries k g (t :: ts) = groupSeries k g [t] ++ groupSeries k g ts := by
  unfold groupSeries observations
  rw [← List.filterMap_append, ← List.filter_append]; rfl

theorem observations_isEmpty_cons (k : routeBreakdownKey) (t : RouteTrace)
    (ts : List RouteTrace) :
    (observations k (t :: ts)).isEmpty =
      ((observations k [t]).isEmpty && (observations k ts).isEmpty) := by
  have : observations k (t :: ts) = observations k [t] ++ observations k ts := by
    unfold observations; rw [← List.filter_append]; rfl
  rw [this]
  cases observations k [t] <;> rfl

theorem foldl_stepMap_overall (k : routeBreakdownKey) (ts : List RouteTrace) :
    ∀ m : KeyMap, overallAt (ts.foldl stepMap m) k = overallAt m k ++ overallSeries k ts := by
  induction ts with
  | nil => intro m; simp [overallSeries, observations]
  | cons t ts ih =>
    intro m
    rw [List.foldl_cons, ih, stepMap_overall, overallSeries_cons k t ts, List.append_assoc]

theorem foldl_stepMap_present (k : routeBreakdownKey) (ts : List RouteTrace) :
    ∀ m : KeyMap, ((ts.foldl stepMap m).lookup k).isSome =
      ((m.lookup k).isSome || !(observations k ts).isEmpty) := by
  induction ts with
  | nil => intro m; simp [observations]
  | cons t ts ih =>
    intro m
    rw [List.foldl_cons, ih, stepMap_present, observations_isEmpty_cons k t ts]
    simp [Bool.or_assoc]

theorem foldl_stepMap_group (k : routeBreakdownKey) (g : String) (ts : List RouteTrace) :
    ∀ m : KeyMap,
      samplesOf (groupAt (ts.foldl stepMap m) k g) = samplesOf (groupAt m k g) ++ groupSeries k g ts ∧
      (groupAt (ts.foldl stepMap m) k g).isSome =
        ((groupAt m k g).isSome || !(groupSeries k g ts).isEmpty) := by
  induction ts with
  | nil => intro m; simp [groupSeries, observations]
  | cons t ts ih =>
    intro m
    obtain ⟨h1, h2⟩ := ih (stepMap m t)
    obtain ⟨h3, h4⟩ := stepMap_group m t k g
    rw [List.foldl_cons, h1, h2, h3, h4, groupSeries_cons k g t ts]
    refine ⟨by rw [List.append_assoc], ?_⟩
    cases groupSeries k g [t] <;> simp

theorem Flush_of_Inv (env : Transport) (s : routeBreakdowns) (hs : s.Inv) :
    s.Flush env = .ok (cleared s,
      { sent := s.m, logged := s.m.bind (fun m => routeBreakdowns.send env (cleared s) m) }) := by
  unfold routeBreakdowns.Flush cleared
  rcases hs with ⟨_, _, h3⟩ | ⟨_, h2, m, h3, _⟩
  · simp [h3]
  · simp [h3, h2]

theorem cleared_Inv (s : routeBreakdowns) : (cleared s).Inv := Or.inl ⟨rfl, rfl, rfl⟩

theorem Reachable_Inv {s : routeBreakdowns} (h : s.Reachable) : s.Inv := by
  induction h with
  | new opt => exact Inv_new opt
  | notify _ hn ih =>
    obtain ⟨t', ht⟩ := Notify_eq_stepState _ _ ih
    rw [ht] at hn
    cases hn
    exact stepState_Inv _ ih
  | flush _ hf ih =>
    rw [Flush_of_Inv _ _ ih] at hf
    cases hf
    exact cleared_Inv _

theorem windowOf_eq (opt : NotifierOptions) (ts : List RouteTrace) :
    windowOf opt ts = (ts.foldl stepState (newRouteBreakdowns opt)).m := by
  unfold windowOf
  rw [NotifyAll_eq_foldl ts _ (Inv_new opt)]

theorem cleared_foldl (opt : NotifierOptions) (ts : List RouteTrace) :
    cleared (ts.foldl stepState (newRouteBreakdowns opt)) = newRouteBreakdowns opt := by
  obtain ⟨h1, h2⟩ := foldl_stepState_opt ts (newRouteBreakdowns opt)
  unfold cleared
  rw [h1, h2]
  rfl

theorem run_batches (opt : NotifierOptions) (steps : List Step) :
    ∀ seg : List RouteTrace,
      ∃ s' rs, (seg.foldl stepState (newRouteBreakdowns opt)).run steps = .ok (s', rs) ∧
        rs.map FlushReport.sent = batches opt seg steps ∧
        ∃ seg' : List RouteTrace, s' = seg'.foldl stepState (newRouteBreakdowns opt) := by
  induction steps with
  | nil => intro seg; exact ⟨_, [], rfl, rfl, seg, rfl⟩
  | cons st rest ih =>
    intro seg
    have hinv := foldl_stepState_Inv seg _ (Inv_new opt)
    cases st with
    | notify t =>
      obtain ⟨t', ht⟩ := Notify_eq_stepState _ t hinv
      obtain ⟨s', rs, h1, h2, h3⟩ := ih (seg ++ [t])
      rw [List.foldl_append] at h1
      refine ⟨s', rs, ?_, ?_, h3⟩
      · simp only [routeBreakdowns.run, ht]
        exact h1
      · simpa [batches] using h2
    | flush env =>
      obtain ⟨s', rs, h1, h2, h3⟩ := ih []
      have hf := Flush_of_Inv env _ hinv
      rw [cleared_foldl] at hf
      refine ⟨s', FlushReport.mk (seg.foldl stepState (newRouteBreakdowns opt)).m
        ((seg.foldl stepState (newRouteBreakdowns opt)).m.bind
          (fun m => routeBreakdowns.send env (newRouteBreakdowns opt) m)) :: rs, ?_, ?_, h3⟩
      · simp only [routeBreakdowns.run, hf]
        simp only [List.foldl_nil] at h1
        rw [h1]
      · simp [batches, h2, windowOf_eq]

theorem groupTotal_IncGroup (t : RouteTrace) (name : String) (dur : Duration) :
    ∃ t', RouteTrace.IncGroup (some t) name dur = .ok (some t') ∧
      t'.spans = t.spans ∧
      RouteTrace.groupTotal (some t') name =
        wrap64 (RouteTrace.groupTotal (some t) name + dur) := by
  refine ⟨_, rfl, rfl, ?_⟩
  simp [RouteTrace.groupTotal, AList.lookup_insert]

theorem FinishSpan_registered (tr : RouteTrace) (name : String) (start now : Time)
    (h : (tr.spans.getD ∅).lookup name = some (Span.span { name := name, start := start })) :
    ∃ t', RouteTrace.FinishSpan (some tr) name now = .ok (some t', []) ∧
      t'.spans = tr.spans ∧
      RouteTrace.groupTotal (some t') name =
        wrap64 (RouteTrace.groupTotal (some tr) name + Since now start) := by
  obtain ⟨t', h1, h2, h3⟩ := groupTotal_IncGroup tr name (Since now start)
  refine ⟨t', ?_, h2, h3⟩
  simp only [RouteTrace.FinishSpan, h, Span.Finish, h1]

theorem key_Time (t : RouteTrace) :
    (routeBreakdowns.Notify.key t).Time =
      { ns := t.Start.ns - t.Start.ns % Minute, loc := none } := by
  simp [routeBreakdowns.Notify.key, Time.UTC, Time.Truncate, Minute]

theorem minute_bucket_eq (a b : Int) :
    a - a % Minute = b - b % Minute ↔ a / Minute = b / Minute := by
  have hM : (Minute : Int) ≠ 0 := by decide
  have ha : a - a % Minute = Minute * (a / Minute) := by
    have := Int.emod_add_ediv a Minute; omega
  have hb : b - b % Minute = Minute * (b / Minute) := by
    have := Int.emod_add_ediv b Minute; omega
  rw [ha, hb]
  constructor
  · intro h; exact Int.eq_of_mul_eq_mul_left hM h
  · intro h; rw [h]

theorem key_eq_iff (t1 t2 : RouteTrace) :
    routeBreakdowns.Notify.key t1 = routeBreakdowns.Notify.key t2 ↔
      t1.Method = t2.Method ∧ t1.Route = t2.Route ∧ t1.respType = t2.respType ∧
      t1.Start.ns / Minute = t2.Start.ns / Minute := by
  constructor
  · intro h
    have hT := congrArg routeBreakdownKey.Time h
    rw [key_Time, key_Time] at hT
    have hns := congrArg Time.ns hT
    simp only at hns
    exact ⟨congrArg routeBreakdownKey.Method h, congrArg routeBreakdownKey.Route h,
      congrArg routeBreakdownKey.RespType h, (minute_bucket_eq _ _).mp hns⟩
  · rintro ⟨h1, h2, h3, h4⟩
    have hT : (routeBreakdowns.Notify.key t1).Time = (routeBreakdowns.Notify.key t2).Time := by
      rw [key_Time, key_Time, (minute_bucket_eq _ _).mpr h4]
    have e1 : routeBreakdowns.Notify.key t1 =
        ⟨t1.Method, t1.Route, t1.respType, (routeBreakdowns.Notify.key t1).Time⟩ := rfl
    have e2 : routeBreakdowns.Notify.key t2 =
        ⟨t2.Method, t2.Route, t2.respType, (routeBreakdowns.Notify.key t2).Time⟩ := rfl
    rw [e1, e2, h1, h2, h3, hT]

theorem run_notifies_then (ts : List RouteTrace) (rest : List Step) :
    ∀ s : routeBreakdowns, s.Inv →
      s.run (ts.map Step.notify ++ rest) = (ts.foldl stepState s).run rest := by
  induction ts with
  | nil => intro s _; rfl
  | cons t ts ih =>
    intro s hs
    obtain ⟨t', ht⟩ := Notify_eq_stepState s t hs
    simp only [List.map_cons, List.cons_append, routeBreakdowns.run, ht, List.foldl_cons]
    exact ih _ (stepState_Inv t hs)

theorem run_notify_only (ts : List RouteTrace) (s : routeBreakdowns) (hs : s.Inv) :
    s.run (ts.map Step.notify) = .ok (ts.foldl stepState s, []) := by
  have := run_notifies_then ts [] s hs
  rw [List.append_nil] at this
  rw [this]; rfl

theorem run_flush (env : Transport) (rest : List Step) (s : routeBreakdowns) (hs : s.Inv) :
    s.run (Step.flush env :: rest) =
      match (cleared s).run rest with
      | .error f => .error f
      | .ok (s'', rs) =>
        .ok (s'', { sent := s.m
                    logged := s.m.bind (fun m => routeBreakdowns.send env (cleared s) m) } :: rs) := by
  simp only [routeBreakdowns.run, Flush_of_Inv env s hs]

/-- What `Flush` reports for the window built from `ts` in a fresh scheduler. -/
theorem windowOf_content (opt : NotifierOptions) (ts : List RouteTrace) :
    (windowOf opt ts = none ↔ ∀ t ∈ ts, ¬ kept t) ∧
    ∀ k : routeBreakdownKey,
      ((((windowOf opt ts).getD ∅).lookup k).isSome ↔ ∃ t ∈ ts, kept t ∧
        routeBreakdowns.Notify.key t = k) ∧
      overallAt ((windowOf opt ts).getD ∅) k = overallSeries k ts ∧
      ∀ g : String,
        samplesOf (groupAt ((windowOf opt ts).getD ∅) k g) = groupSeries k g ts := by
  rw [windowOf_eq]
  have hcur := foldl_stepState_cur ts (newRouteBreakdowns opt)
  have hcur0 : (newRouteBreakdowns opt).cur = ∅ := rfl
  rw [hcur0] at hcur
  have hgetD : (ts.foldl stepState (newRouteBreakdowns opt)).m.getD ∅ =
      ts.foldl stepMap (∅ : KeyMap) := hcur
  rw [hgetD]
  refine ⟨?_, ?_⟩
  · rw [foldl_stepState_m]
    exact ⟨fun h => h.2, fun h => ⟨rfl, h⟩⟩
  · intro k
    refine ⟨?_, ?_, ?_⟩
    · rw [foldl_stepMap_present]
      simp only [AList.lookup_empty, Option.isSome_none, Bool.false_or, Bool.not_eq_true',
        List.isEmpty_eq_false_iff_exists_mem, observations, List.mem_filter, Bool.and_eq_true,
        decide_eq_true_eq]
    · have := foldl_stepMap_overall k ts (∅ : KeyMap)
      simpa [overallAt, AList.lookup_empty] using this
    · intro g
      have := (foldl_stepMap_group k g ts (∅ : KeyMap)).1
      simpa [groupAt, samplesOf, AList.lookup_empty] using this

/-! # The claims -/

/-- C2. `respType` is `"error"` when the status is at least 400; otherwise,
for a non-empty content type, it is the part of the content type after its last
`'/'` (`subtypeAfterLastSlash`: for `pre ++ "/" ++ r` with no `'/'` in `r` it
is `r`, and the whole content type when it has no `'/'`); otherwise it is the
empty string.  Two traces with the same status and content type have the same
`respType`. -/
theorem respType_spec (t : RouteTrace) :
    (t.StatusCode ≥ 400 → t.respType = "error") ∧
    (t.StatusCode < 400 → t.ContentType ≠ "" →
      t.respType = subtypeAfterLastSlash t.ContentType) ∧
    (t.StatusCode < 400 → t.ContentType = "" → t.respType = "") ∧
    (∀ pre r : List Char, t.ContentType.data = pre ++ '/' :: r → '/' ∉ r →
      subtypeAfterLastSlash t.ContentType = String.mk r) ∧
    ('/' ∉ t.ContentType.data → subtypeAfterLastSlash t.ContentType = t.ContentType) ∧
    (∀ u : RouteTrace, u.StatusCode = t.StatusCode → u.ContentType = t.ContentType →
      u.respType = t.respType) := by
  refine ⟨?_, ?_, ?_, ?_, ?_, ?_⟩
  · intro h; rw [respType_eq]; simp [h]
  · intro h hc
    have : ¬ t.StatusCode ≥ 400 := by omega
    rw [respType_eq]; simp [this, hc]
  · intro h hc
    have : ¬ t.StatusCode ≥ 400 := by omega
    rw [respType_eq]; simp [this, hc]
  · intro pre r h hr; exact subtypeAfterLastSlash_split _ pre r h hr
  · intro h; exact subtypeAfterLastSlash_absent _ h
  · intro u hs hc
    rw [respType_eq, respType_eq, hs, hc]

/-- Witness for C2: `application/json` with status 200 gives `"json"`, status
404 gives `"error"`, an empty content type gives `""`. -/
theorem respType_spec_witness :
    (exampleTrace 200 120 40).respType = "json" ∧
    (exampleTrace 404 120 40).respType = "error" ∧
    ({ exampleTrace 200 120 40 with ContentType := "" } : RouteTrace).respType = "" :=
  ⟨((respType_spec (exampleTrace 200 120 40)).2.1 (by decide) (by decide)).trans
      ((respType_spec (exampleTrace 200 120 40)).2.2.2.1
        "application".data "json".data (by decide) (by decide)),
   (respType_spec (exampleTrace 404 120 40)).1 (by decide),
   (respType_spec { exampleTrace 200 120 40 with ContentType := "" }).2.2.1
     (by decide) (by decide)⟩

/-- C4 fails as stated: a span opened at time 0 and finished at 1000 ns and
again at 2000 ns leaves a group total of 1000 ns after the first finish and
3000 ns after the second, both through `span.Finish` and through
`FinishSpan`. -/
theorem Finish_twice_counterexample :
    (∃ t1 s t2 t3,
      RouteTrace.Span (some (exampleTrace 200 120 0)) "db" { ns := 0, loc := none } = (t1, s) ∧
      s.Finish t1 { ns := 1000, loc := none } = .ok t2 ∧
      s.Finish t2 { ns := 2000, loc := none } = .ok t3 ∧
      RouteTrace.groupTotal t2 "db" = 1000 ∧ RouteTrace.groupTotal t3 "db" = 3000 ∧
      RouteTrace.groupTotal t3 "db" ≠ RouteTrace.groupTotal t2 "db") ∧
    (∃ u2 u3,
      RouteTrace.FinishSpan
        (RouteTrace.StartSpan (some (exampleTrace 200 120 0)) "db" { ns := 0, loc := none })
        "db" { ns := 1000, loc := none } = .ok (u2, []) ∧
      RouteTrace.FinishSpan u2 "db" { ns := 2000, loc := none } = .ok (u3, []) ∧
      RouteTrace.groupTotal u2 "db" = 1000 ∧ RouteTrace.groupTotal u3 "db" = 3000 ∧
      RouteTrace.groupTotal u3 "db" ≠ RouteTrace.groupTotal u2 "db") := by
  refine ⟨⟨_, _, _, _, rfl, rfl, rfl, by decide, by decide, by decide⟩,
    ⟨_, _, rfl, rfl, by decide, by decide, by decide⟩⟩

/-- C4, amended. Every `Finish` of a span adds the time elapsed since the
span's start to the trace's group total of the span's name (with `int64`
wrap-around): after the second finish the group total is the total after the
first finish plus the time from the span's start to the second finish.  The same
holds for two calls of `FinishSpan(name)` after one `StartSpan(name)`, which
both find the span registered and log nothing. -/
theorem Finish_twice_accumulates (t : RouteTrace) (name : String) (now0 now1 now2 : Time) :
    (∃ t1 s t2 t3,
      RouteTrace.Span (some t) name now0 = (t1, s) ∧
      s.Finish t1 now1 = .ok t2 ∧ s.Finish t2 now2 = .ok t3 ∧
      RouteTrace.groupTotal t2 name =
        wrap64 (RouteTrace.groupTotal (some t) name + Since now1 now0) ∧
      RouteTrace.groupTotal t3 name =
        wrap64 (RouteTrace.groupTotal t2 name + Since now2 now0)) ∧
    (∃ u2 u3,
      RouteTrace.FinishSpan (RouteTrace.StartSpan (some t) name now0) name now1 = .ok (u2, []) ∧
      RouteTrace.FinishSpan u2 name now2 = .ok (u3, []) ∧
      RouteTrace.groupTotal u2 name =
        wrap64 (RouteTrace.groupTotal (some t) name + Since now1 now0) ∧
      RouteTrace.groupTotal u3 name =
        wrap64 (RouteTrace.groupTotal u2 name + Since now2 now0)) := by
  constructor
  · refine ⟨_, _, _, _, rfl, rfl, rfl, ?_, ?_⟩
    · simp [RouteTrace.groupTotal, AList.lookup_insert]
    · simp [RouteTrace.groupTotal, AList.lookup_insert]
  · have hreg : ∀ tr : RouteTrace,
        RouteTrace.StartSpan (some t) name now0 = some tr →
        (tr.spans.getD ∅).lookup name = some (Span.span { name := name, start := now0 }) ∧
        RouteTrace.groupTotal (some tr) name = RouteTrace.groupTotal (some t) name := by
      intro tr htr
      simp only [RouteTrace.StartSpan, RouteTrace.Span, Option.some.injEq] at htr
      subst htr
      exact ⟨by simp [AList.lookup_insert], rfl⟩
    obtain ⟨tr, htr⟩ : ∃ tr, RouteTrace.StartSpan (some t) name now0 = some tr := ⟨_, rfl⟩
    obtain ⟨hsp, hg0⟩ := hreg tr htr
    obtain ⟨u2, h1, h2, h3⟩ := FinishSpan_registered tr name now0 now1 hsp
    have hsp2 : (u2.spans.getD ∅).lookup name =
        some (Span.span { name := name, start := now0 }) := by rw [h2]; exact hsp
    obtain ⟨u3, h4, _, h6⟩ := FinishSpan_registered u2 name now0 now2 hsp2
    rw [htr]
    exact ⟨some u2, some u3, h1, h4, by rw [h3, hg0], h6⟩

/-- C5. Window isolation in the sequential model.  Starting from a new
scheduler, notifying the traces `A` and flushing hands to `send` exactly the
window built from `A` (nothing when no trace of `A` is kept) and leaves the
scheduler with map, wait group and timer all absent.  Notifying `B` afterwards
leaves the report of that flush unchanged and accumulates `B` in a newly opened
window, which the next flush hands over.  Under every key the first batch holds
a breakdown iff a kept trace of `A` has that key, with exactly the overall and
group samples of those traces; likewise the second batch and `B`. -/
theorem window_isolation (opt : NotifierOptions) (A B : List RouteTrace)
    (env1 env2 : Transport) :
    ∃ r1 r2 sB,
      (newRouteBreakdowns opt).run (A.map Step.notify ++ [Step.flush env1]) =
        .ok (newRouteBreakdowns opt, [r1]) ∧
      r1.sent = windowOf opt A ∧
      (newRouteBreakdowns opt).m = none ∧ (newRouteBreakdowns opt).addWG = none ∧
      (newRouteBreakdowns opt).flushTimer = none ∧
      (newRouteBreakdowns opt).run
          (A.map Step.notify ++ [Step.flush env1] ++ B.map Step.notify) = .ok (sB, [r1]) ∧
      sB.m = windowOf opt B ∧
      (newRouteBreakdowns opt).run
          (A.map Step.notify ++ [Step.flush env1] ++ B.map Step.notify ++ [Step.flush env2]) =
        .ok (newRouteBreakdowns opt, [r1, r2]) ∧
      r2.sent = windowOf opt B ∧
      (∀ k : routeBreakdownKey,
        (((r1.sent.getD ∅).lookup k).isSome ↔
          ∃ t ∈ A, kept t ∧ routeBreakdowns.Notify.key t = k) ∧
        overallAt (r1.sent.getD ∅) k = overallSeries k A ∧
        ∀ g : String, samplesOf (groupAt (r1.sent.getD ∅) k g) = groupSeries k g A) ∧
      (∀ k : routeBreakdownKey,
        (((r2.sent.getD ∅).lookup k).isSome ↔
          ∃ t ∈ B, kept t ∧ routeBreakdowns.Notify.key t = k) ∧
        overallAt (r2.sent.getD ∅) k = overallSeries k B ∧
        ∀ g : String, samplesOf (groupAt (r2.sent.getD ∅) k g) = groupSeries k g B) := by
  have hA := foldl_stepState_Inv A _ (Inv_new opt)
  have hB := foldl_stepState_Inv B _ (Inv_new opt)
  have hfA := Flush_of_Inv env1 _ hA
  have hfB := Flush_of_Inv env2 _ hB
  rw [cleared_foldl] at hfA hfB
  have hwA := windowOf_eq opt A
  have hwB := windowOf_eq opt B
  refine ⟨⟨windowOf opt A,
      (windowOf opt A).bind (fun m => routeBreakdowns.send env1 (newRouteBreakdowns opt) m)⟩,
    ⟨windowOf opt B,
      (windowOf opt B).bind (fun m => routeBreakdowns.send env2 (newRouteBreakdowns opt) m)⟩,
    B.foldl stepState (newRouteBreakdowns opt), ?_, rfl, rfl, rfl, rfl, ?_, hwB.symm, ?_, rfl,
    (windowOf_content opt A).2, (windowOf_content opt B).2⟩
  · rw [run_notifies_then A _ _ (Inv_new opt), run_flush env1 _ _ hA, cleared_foldl, hwA]
    rfl
  · simp only [List.append_assoc, List.singleton_append, List.cons_append, List.nil_append]
    rw [run_notifies_then A _ _ (Inv_new opt), run_flush env1 _ _ hA, cleared_foldl,
      run_notify_only B _ (Inv_new opt), hwA]
  · simp only [List.append_assoc, List.singleton_append, List.cons_append, List.nil_append]
    rw [run_notifies_then A _ _ (Inv_new opt), run_flush env1 _ _ hA, cleared_foldl,
      run_notifies_then B _ _ (Inv_new opt), run_flush env2 _ _ hB, cleared_foldl, hwA, hwB]
    rfl

/-- C6. On a nil trace `Span(name)` returns the no-op span and the trace stays
nil; `Finish` on that span returns normally and leaves whatever trace state
there is unchanged; `StartSpan(name)` leaves the trace nil; `FinishSpan(name)`
returns normally, leaves the trace nil and logs nothing. -/
theorem nil_trace_is_noop (name : String) (now later : Time) :
    RouteTrace.Span none name now = (none, Span.noopSpan) ∧
    (∀ world : Option RouteTrace,
      (RouteTrace.Span none name now).2.Finish world later = .ok world) ∧
    RouteTrace.StartSpan none name now = none ∧
    RouteTrace.FinishSpan none name later = .ok (none, []) :=
  ⟨rfl, fun _ => rfl, rfl, rfl⟩

/-- C7. In a reachable state two kept traces notified one after the other are
each filed under the key (method, route, `respType`, start in UTC truncated to
the minute), and the stored breakdowns carry those keys.  They are folded into
the same breakdown iff method, route and response type are equal and the start
instants fall in the same minute since the zero time, whatever their location:
then the breakdown received both durations, otherwise each of the two
breakdowns received one.  Every breakdown of the window carries the key it is
stored under. -/
theorem Notify_files_by_key (s : routeBreakdowns) (t1 t2 : RouteTrace)
    (hs : s.Reachable) (h1 : kept t1) (h2 : kept t2) :
    ∃ s1 u1 s2 u2 b1 b2,
      s.Notify t1 = .ok (s1, u1) ∧ s1.Notify t2 = .ok (s2, u2) ∧
      s2.find (routeBreakdowns.Notify.key t1) = some b1 ∧
      s2.find (routeBreakdowns.Notify.key t2) = some b2 ∧
      b1.routeBreakdownKey = routeBreakdowns.Notify.key t1 ∧
      b2.routeBreakdownKey = routeBreakdowns.Notify.key t2 ∧
      routeBreakdowns.Notify.key t1 =
        { Method := t1.Method, Route := t1.Route, RespType := t1.respType
          Time := { ns := t1.Start.ns - t1.Start.ns % Minute, loc := none } } ∧
      (b1 = b2 ↔
        (t1.Method = t2.Method ∧ t1.Route = t2.Route ∧ t1.respType = t2.respType ∧
          t1.Start.ns / Minute = t2.Start.ns / Minute)) ∧
      (routeBreakdowns.Notify.key t1 = routeBreakdowns.Notify.key t2 →
        b1.routeStat.samples =
          overallAt s.cur (routeBreakdowns.Notify.key t1) ++
            [durInMs (t1.End.Sub t1.Start), durInMs (t2.End.Sub t2.Start)]) ∧
      (routeBreakdowns.Notify.key t1 ≠ routeBreakdowns.Notify.key t2 →
        b1.routeStat.samples =
          overallAt s.cur (routeBreakdowns.Notify.key t1) ++ [durInMs (t1.End.Sub t1.Start)] ∧
        b2.routeStat.samples =
          overallAt s.cur (routeBreakdowns.Notify.key t2) ++ [durInMs (t2.End.Sub t2.Start)]) ∧
      (∀ k b, s2.find k = some b → b.routeBreakdownKey = k) := by
  have hinv := Reachable_Inv hs
  obtain ⟨u1, hn1⟩ := Notify_eq_stepState s t1 hinv
  have hinv1 := stepState_Inv t1 hinv
  obtain ⟨u2, hn2⟩ := Notify_eq_stepState (stepState s t1) t2 hinv1
  have hinv2 := stepState_Inv t2 hinv1
  have hok := Inv_cur hinv2
  have hcur : (stepState (stepState s t1) t2).cur = [t1, t2].foldl stepMap s.cur := by
    rw [stepState_cur, stepState_cur]; rfl
  have hpres : ∀ k, (k = routeBreakdowns.Notify.key t1 ∨ k = routeBreakdowns.Notify.key t2) →
      ∃ b, (stepState (stepState s t1) t2).find k = some b := by
    intro k hk
    apply Option.isSome_iff_exists.mp
    rw [find_eq_cur, hcur, foldl_stepMap_present]
    rcases hk with hk | hk
    · simp [observations, h1, hk]
    · simp [observations, h2, hk]
  obtain ⟨b1, hb1⟩ := hpres _ (Or.inl rfl)
  obtain ⟨b2, hb2⟩ := hpres _ (Or.inr rfl)
  have hall : ∀ k b, (stepState (stepState s t1) t2).find k = some b →
      b.routeBreakdownKey = k := by
    intro k b hb
    rw [find_eq_cur] at hb
    exact hok k b hb
  have hk1 := hall _ _ hb1
  have hk2 := hall _ _ hb2
  have hsam : ∀ k b, (stepState (stepState s t1) t2).find k = some b →
      b.routeStat.samples = overallAt s.cur k ++ overallSeries k [t1, t2] := by
    intro k b hb
    rw [find_eq_cur, hcur] at hb
    have := foldl_stepMap_overall k [t1, t2] s.cur
    simp only [overallAt, hb] at this
    exact this
  refine ⟨_, u1, _, u2, b1, b2, hn1, hn2, hb1, hb2, hk1, hk2, ?_, ?_, ?_, ?_, hall⟩
  · have e1 : routeBreakdowns.Notify.key t1 =
        ⟨t1.Method, t1.Route, t1.respType, (routeBreakdowns.Notify.key t1).Time⟩ := rfl
    rw [e1, key_Time]
  · rw [← key_eq_iff]
    constructor
    · intro hb
      rw [← hk1, ← hk2, hb]
    · intro hk
      rw [hk, hb2] at hb1
      exact (Option.some.inj hb1).symm
  · intro hk
    rw [hsam _ _ hb1]
    simp [overallSeries, observations, h1, h2, hk]
  · intro hk
    have hk' : ¬ routeBreakdowns.Notify.key t2 = routeBreakdowns.Notify.key t1 :=
      fun e => hk e.symm
    rw [hsam _ _ hb1, hsam _ _ hb2]
    constructor
    · simp [overallSeries, observations, h1, h2, hk']
    · simp [overallSeries, observations, h1, h2, hk]

/-- Witness for C7: two requests of the same route started 30 s apart in the
same UTC minute, one stamped in UTC and one in CET, share one breakdown. -/
theorem Notify_files_by_key_witness :
    (newRouteBreakdowns exampleOpt).Reachable ∧ kept (exampleTrace 200 120 40) ∧
    kept exampleTraceCET ∧
    ∃ s1 u1 s2 u2 b,
      (newRouteBreakdowns exampleOpt).Notify (exampleTrace 200 120 40) = .ok (s1, u1) ∧
      s1.Notify exampleTraceCET = .ok (s2, u2) ∧
      s2.find (routeBreakdowns.Notify.key (exampleTrace 200 120 40)) = some b ∧
      s2.find (routeBreakdowns.Notify.key exampleTraceCET) = some b := by
  refine ⟨routeBreakdowns.Reachable.new exampleOpt, by decide, by decide, ?_⟩
  obtain ⟨s1, u1, s2, u2, b1, b2, h1, h2, h3, h4, _, _, _, h8, _⟩ :=
    Notify_files_by_key (newRouteBreakdowns exampleOpt) (exampleTrace 200 120 40)
      exampleTraceCET (routeBreakdowns.Reachable.new exampleOpt) (by decide) (by decide)
  have hb : b1 = b2 := h8.mpr (by decide)
  exact ⟨s1, u1, s2, u2, b1, h1, h2, h3, hb ▸ h4⟩

/-- C9. In a reachable state `Flush` returns normally whatever `send` does: it
leaves the scheduler with no map, wait group or timer, the state it leaves and
the batch it handed to `send` are the same for every transport, the error of
`send` is only logged, and a further flush hands nothing to `send`.  Over any
sequence of notifies and flushes with arbitrary transports, each flush hands
over exactly the window built from the traces notified since the previous
flush, so no trace reaches `send` in more than one flush. -/
theorem Flush_discards_batch (env : Transport) (s : routeBreakdowns) (hs : s.Reachable) :
    (∃ s' r, s.Flush env = .ok (s', r) ∧
      s'.m = none ∧ s'.addWG = none ∧ s'.flushTimer = none ∧
      r.sent = s.m ∧ r.logged = s.m.bind (fun m => routeBreakdowns.send env s' m) ∧
      (∀ other : Transport, ∃ r', s.Flush other = .ok (s', r') ∧ r'.sent = r.sent) ∧
      (∀ next : Transport, s'.Flush next = .ok (s', { sent := none, logged := none }))) ∧
    (∀ (opt : NotifierOptions) (steps : List Step),
      ∃ s' rs, (newRouteBreakdowns opt).run steps = .ok (s', rs) ∧
        rs.map FlushReport.sent = batches opt [] steps) := by
  have hinv := Reachable_Inv hs
  constructor
  · refine ⟨cleared s, _, Flush_of_Inv env s hinv, rfl, rfl, rfl, rfl, rfl, ?_, ?_⟩
    · intro other
      exact ⟨_, Flush_of_Inv other s hinv, rfl⟩
    · intro next
      rfl
  · intro opt steps
    obtain ⟨s', rs, h1, h2, _⟩ := run_batches opt steps []
    exact ⟨s', rs, h1, h2⟩

/-- Witness for C9: after one kept request a flush against a server answering
401 returns normally, clears the window and logs `errUnauthorized`. -/
theorem Flush_discards_batch_witness :
    ∃ s1 u1, (newRouteBreakdowns exampleOpt).Notify (exampleTrace 200 120 40) = .ok (s1, u1) ∧
      s1.Reachable ∧
      ∃ s' r, s1.Flush unauthorizedTransport = .ok (s', r) ∧ s'.m = none ∧
        r.sent = s1.m ∧ r.logged = some GoError.errUnauthorized := by
  obtain ⟨u1, h1⟩ := Notify_eq_stepState (newRouteBreakdowns exampleOpt)
    (exampleTrace 200 120 40) (Inv_new exampleOpt)
  have hr : (stepState (newRouteBreakdowns exampleOpt) (exampleTrace 200 120 40)).Reachable :=
    routeBreakdowns.Reachable.notify (routeBreakdowns.Reachable.new exampleOpt) h1
  obtain ⟨⟨s', r, h2, h3, _, _, h6, h7, _, _⟩, _⟩ :=
    Flush_discards_batch unauthorizedTransport _ hr
  refine ⟨_, u1, h1, hr, s', r, h2, h3, h6, ?_⟩
  rw [h7]
  rfl

end gobrake

namespace beego

open gobrake

/-- C8. With a non-nil notifier: when the route is not found the filter calls
the next handler once and nothing else, the notifier is unchanged, and a flush
of a notifier that was new hands nothing to `send`.  When the route is found
and the notifier's scheduler is in a reachable state the filter returns
normally, its calls are the next handler and then one `Notify`, whose metric
has the resolved pattern as route and the status the handler left (200 when it
left none), and the notifier holds the scheduler that `Notify` returned. -/
theorem New_unresolved_route (n : Notifier) (FindRouter : Context → Option String)
    (next : Context → Context) (now : Time) (ctx : Context) :
    (FindRouter ctx = none →
      New (some n) FindRouter next now ctx = .ok (some n, next ctx, [Call.next ctx]) ∧
      ∀ (opt : NotifierOptions) (env : Transport), n.Routes = newRouteBreakdowns opt →
        n.Routes.Flush env = .ok (n.Routes, { sent := none, logged := none })) ∧
    (∀ pattern : String, FindRouter ctx = some pattern → n.Routes.Reachable →
      ∃ routes metric',
        New (some n) FindRouter next now ctx =
          .ok (some { Routes := routes }, next ctx,
            [Call.next ctx,
             Call.notify
               { NewRouteMetric now ctx.Method pattern with
                 StatusCode := if (next ctx).Status = 0 then 200 else (next ctx).Status }]) ∧
        (NewRouteMetric now ctx.Method pattern).Route = pattern ∧
        n.Routes.Notify
            { NewRouteMetric now ctx.Method pattern with
              StatusCode := if (next ctx).Status = 0 then 200 else (next ctx).Status } =
          .ok (routes, metric')) := by
  constructor
  · intro h
    refine ⟨by simp [New, h], ?_⟩
    intro opt env hn
    rw [hn]; rfl
  · intro pattern h hr
    obtain ⟨t', ht⟩ := Notify_eq_stepState n.Routes
      { NewRouteMetric now ctx.Method pattern with
        StatusCode := if (next ctx).Status = 0 then 200 else (next ctx).Status }
      (Reachable_Inv hr)
    refine ⟨_, t', ?_, rfl, ht⟩
    simp only [New, h, ht]

/-- Witness for C8: a request with no route only reaches the next handler; a
request resolved to `/users/:id` is notified once after the handler. -/
theorem New_unresolved_route_witness :
    New (some { Routes := newRouteBreakdowns exampleOpt }) (fun _ => none)
        (fun c => { c with Status := 404 }) { ns := 0, loc := none }
        { Method := "GET", Status := 0 } =
      .ok (some { Routes := newRouteBreakdowns exampleOpt }, { Method := "GET", Status := 404 },
        [Call.next { Method := "GET", Status := 0 }]) ∧
    (newRouteBreakdowns exampleOpt).Reachable ∧
    ∃ routes metric',
      New (some { Routes := newRouteBreakdowns exampleOpt }) (fun _ => some "/users/:id")
          (fun c => c) { ns := 0, loc := none } { Method := "GET", Status := 0 } =
        .ok (some { Routes := routes }, { Method := "GET", Status := 0 },
          [Call.next { Method := "GET", Status := 0 },
           Call.notify
             { NewRouteMetric { ns := 0, loc := none } "GET" "/users/:id" with
               StatusCode := 200 }]) ∧
      (newRouteBreakdowns exampleOpt).Notify
          { NewRouteMetric { ns := 0, loc := none } "GET" "/users/:id" with StatusCode := 200 } =
        .ok (routes, metric') := by
  refine ⟨((New_unresolved_route { Routes := newRouteBreakdowns exampleOpt } (fun _ => none)
      (fun c => { c with Status := 404 }) { ns := 0, loc := none }
      { Method := "GET", Status := 0 }).1 rfl).1,
    routeBreakdowns.Reachable.new exampleOpt, ?_⟩
  obtain ⟨routes, metric', h1, _, h3⟩ :=
    (New_unresolved_route { Routes := newRouteBreakdowns exampleOpt }
      (fun _ => some "/users/:id") (fun c => c) { ns := 0, loc := none }
      { Method := "GET", Status := 0 }).2 "/users/:id" rfl
      (routeBreakdowns.Reachable.new exampleOpt)
  exact ⟨routes, metric', h1, h3⟩

end beego
